import Mathlib

/-!
Shallow embedding of the interactive git-branch switcher (`src/main.rs`).

The program has three pure cores, embedded here:
  * the Lister's output parser (`load_branches`, lines 37-68 of `main.rs`),
  * the delete-with-force-fallback (`delete_branch`, lines 116-139),
  * the interactive state machine of `run_app` (lines 149-320) together with
    the post-loop behaviour of `main` (lines 70-114).

External `git` subprocess invocations are modelled by an oracle environment
(`GitEnv`): each invocation's observable outcome (exit status, captured
stdout/stderr) is a value supplied by the environment, and the embedded
functions compute exactly what the Rust code computes from those outcomes.
Machine integers: `usize` indices become `Nat` (with Rust's `len() - 1`
becoming truncated `Nat` subtraction), process exit codes become `Int`.
-/

namespace GBS

/-- One local branch, as in `struct Branch` (fields `name`, `short_sha`,
`is_current`). -/
structure Branch where
  name : String
  short_sha : String
  is_current : Bool
deriving DecidableEq

/-- The interaction mode, as in `enum AppMode`. -/
inductive AppMode where
  | Normal
  | ConfirmDelete
deriving DecidableEq

/-- The mutable session state, as in `struct App` (fields `branches`,
`selected`, `mode`). -/
structure App where
  branches : List Branch
  selected : Nat
  mode : AppMode
deriving DecidableEq

/-- Observable outcome of one `Command::output()` call: whether the exit
status was success, plus the captured stdout and stderr (already decoded as
text; a non-UTF-8 stdout aborts `load_branches` earlier and is out of scope
of the claims treated here). -/
structure CmdOutput where
  success : Bool
  stdout : String
  stderr : String
deriving DecidableEq

/-- Observable outcome of one `Command::status()` call: success flag and
`ExitStatus::code()`, which is `none` when the process was killed by a
signal. -/
structure ExitStatus where
  success : Bool
  code : Option Int
deriving DecidableEq

/- ### The Lister's parser -/

/-- Rust `str::split('|')`, structurally on the character list: splits at
every separator occurrence; an empty input yields one empty field. -/
def splitOnChar (sep : Char) : List Char → List (List Char)
  | [] => [[]]
  | c :: cs =>
    match splitOnChar sep cs with
    | [] => if c = sep then [[], []] else [[c]]
    | g :: gs => if c = sep then [] :: g :: gs else (c :: g) :: gs

/-- Rust `str::lines()`: split at `'\n'`, drop the optional final empty
segment produced by a trailing newline, and strip one trailing `'\r'` from
each line. -/
def rustLines (s : String) : List String :=
  let parts := splitOnChar '\n' s.toList
  let parts := match parts.getLast? with
    | some [] => parts.dropLast
    | _ => parts
  parts.map fun l => String.mk (if l.getLast? = some '\r' then l.dropLast else l)

/-- The per-line parser of `load_branches` (lines 55-65 of `main.rs`):
split on `'|'`, take the first three fields with `unwrap_or("")` defaulting
missing trailing fields to the empty string; `is_current` is the test
`head_flag == "*"`. -/
def parseLine (line : String) : Branch :=
  let parts := (splitOnChar '|' line.toList).map fun cs => String.mk cs
  { name := parts.getD 0 ""
    short_sha := parts.getD 1 ""
    is_current := parts.getD 2 "" == "*" }

/-- Field `j` of a line under the Lister's splitting discipline (split on
`'|'`, missing fields default to `""`); used to state what `parseLine`
produces. -/
def lineField (line : String) (j : Nat) : String :=
  ((splitOnChar '|' line.toList).map fun cs => String.mk cs).getD j ""

/-- The pure part of `load_branches` (lines 52-66): keep the non-empty
lines of the subprocess's stdout (Rust `!l.trim().is_empty()`, i.e. the
line has at least one non-whitespace character) and parse each. -/
def load_branches_parse (stdout : String) : List Branch :=
  ((rustLines stdout).filter fun l => l.toList.any fun c => !c.isWhitespace).map parseLine

/-- The non-empty lines of a parser input, the `N` lines the spec counts. -/
def nonEmptyLines (s : String) : List String :=
  (rustLines s).filter fun l => l.toList.any fun c => !c.isWhitespace

/-- `load_branches` (lines 37-68): on non-zero exit status fail with the
captured stderr embedded in the message, otherwise parse stdout. -/
def load_branches (o : CmdOutput) : Except String (List Branch) :=
  if o.success then .ok (load_branches_parse o.stdout)
  else .error ("git for-each-ref failed: " ++ o.stderr)

/- ### The Mutator's delete with force fallback -/

/-- Whether `needle` occurs at the head of `hay` (Rust slice equality used
by `str::contains`'s matcher). -/
def listStartsWith : List Char → List Char → Bool
  | [], _ => true
  | _ :: _, [] => false
  | a :: as, b :: bs => a == b && listStartsWith as bs

/-- Helper for `strContains`: scan every suffix of the haystack. -/
def strContainsAux (needle : List Char) : List Char → Bool
  | [] => listStartsWith needle []
  | c :: cs => listStartsWith needle (c :: cs) || strContainsAux needle cs

/-- Rust `str::contains(substring)`: some suffix of the haystack starts
with the needle. -/
def strContains (hay needle : String) : Bool :=
  strContainsAux needle.toList hay.toList

/-- `delete_branch` (lines 116-139). `safe` and `forced` are the outcomes
the environment has in store for `git branch -d` and `git branch -D`
respectively; the returned `Bool` records whether the forced variant was
actually invoked. The safe delete runs first; only when it fails with a
stderr containing "not fully merged" is the forced variant run, once. -/
def delete_branch (name : String) (safe forced : CmdOutput) :
    Except String Unit × Bool :=
  if safe.success then (.ok (), false)
  else if strContains safe.stderr "not fully merged" then
    if forced.success then (.ok (), true)
    else (.error ("git branch -D failed: " ++ forced.stderr), true)
  else (.error ("git branch -d failed: " ++ safe.stderr), false)

/-- The name parameter of `delete_branch` does not influence the modelled
outcome (the environment already fixes each subprocess's result). -/
theorem delete_branch_name_irrel (n₁ n₂ : String) (safe forced : CmdOutput) :
    delete_branch n₁ safe forced = delete_branch n₂ safe forced := rfl

/- ### The interactive loop's state machine -/

/-- The key codes `run_app` inspects (`crossterm` `KeyCode`); `other` is
any key the dispatcher ignores in both modes. -/
inductive KeyCode where
  | char (c : Char)
  | down
  | up
  | enter
  | esc
  | other
deriving DecidableEq

/-- A keyboard event: code plus whether it is a release event (line 263:
release events are skipped). -/
structure KeyEvent where
  code : KeyCode
  isRelease : Bool
deriving DecidableEq

/-- Oracle outcomes for the subprocess calls one loop iteration can make:
the safe delete, the forced delete, and the branch-list reload. -/
structure GitEnv where
  safe : CmdOutput
  forced : CmdOutput
  reload : CmdOutput
deriving DecidableEq

/-- Result of one loop iteration: continue with a new state, return from
`run_app` with `Ok(None)`/`Ok(Some idx)` (the final `&mut App` state is
carried alongside), or return `Err` with a message. -/
inductive StepResult where
  | cont (a : App)
  | exit (sel : Option Nat) (a : App)
  | fail (e : String) (a : App)
deriving DecidableEq

/-- Lines 297-301: `j`/down moves the selection down unless already at the
last entry (`selected + 1 < len`). -/
def moveDown (a : App) : App :=
  if a.selected + 1 < a.branches.length then { a with selected := a.selected + 1 }
  else a

/-- Lines 302-306: `k`/up moves the selection up unless already at 0. -/
def moveUp (a : App) : App :=
  if 0 < a.selected then { a with selected := a.selected - 1 }
  else a

/-- Lines 308-313: `D` enters `ConfirmDelete` only when the selected
branch is not current (`selected_is_current` is the snapshot
`branches.get(selected).map(is_current).unwrap_or(false)`). -/
def requestDelete (a : App) : App :=
  if ((a.branches[a.selected]?).map fun b => b.is_current).getD false then a
  else { a with mode := AppMode.ConfirmDelete }

/-- Lines 279-281: after a reload the selection is clamped,
`if selected >= len && selected > 0 { selected = len - 1 }` (with Rust's
`usize` subtraction embedded as truncated `Nat` subtraction). -/
def clampSel (a : App) (bs : List Branch) : Nat :=
  if bs.length ≤ a.selected ∧ 0 < a.selected then bs.length - 1 else a.selected

/-- Lines 277-287, after a successful reload producing `bs`: install the
reloaded list, clamp the selection, return `Ok(None)` when the list became
empty (lines 283-285; the mode field is not touched on this path), else
fall through to `mode = Normal` (line 287). -/
def afterReload (a : App) (bs : List Branch) : StepResult :=
  if bs.isEmpty then
    .exit none { branches := bs, selected := clampSel a bs, mode := a.mode }
  else
    .cont { branches := bs, selected := clampSel a bs, mode := AppMode.Normal }

/-- Line 277, `app.branches = load_branches()?`: a reload error propagates
out of `run_app` at once, before the assignment, so the state is left
untouched. -/
def afterDelete (a : App) (env : GitEnv) : StepResult :=
  match load_branches env.reload with
  | .error e => .fail e a
  | .ok bs => afterReload a bs

/-- Lines 269-288: handling of `y`/`Y` in `ConfirmDelete` mode. When a
branch is selected, run `delete_branch`; on failure set the mode back to
`Normal` and return `Err` (lines 271-275); on success reload and proceed
as `afterDelete`. With no selected branch only `mode = Normal` runs. -/
def confirmYes (a : App) (env : GitEnv) : StepResult :=
  match a.branches[a.selected]? with
  | none => .cont { a with mode := AppMode.Normal }
  | some b =>
    match (delete_branch b.name env.safe env.forced).1 with
    | .error e => .fail ("Failed to delete branch: " ++ e) { a with mode := AppMode.Normal }
    | .ok _ => afterDelete a env

/-- Lines 267-293: the `ConfirmDelete`-mode dispatcher (`y`/`Y` confirm,
`n`/`N`/Esc cancel, anything else ignored). -/
def confirmStep (a : App) (k : KeyCode) (env : GitEnv) : StepResult :=
  match k with
  | .char c =>
    if c = 'y' ∨ c = 'Y' then confirmYes a env
    else if c = 'n' ∨ c = 'N' then .cont { a with mode := AppMode.Normal }
    else .cont a
  | .esc => .cont { a with mode := AppMode.Normal }
  | _ => .cont a

/-- Lines 294-316: the `Normal`-mode dispatcher. -/
def normalStep (a : App) (k : KeyCode) : StepResult :=
  match k with
  | .char c =>
    if c = 'q' then .exit none a
    else if c = 'j' then .cont (moveDown a)
    else if c = 'k' then .cont (moveUp a)
    else if c = 'D' then .cont (requestDelete a)
    else .cont a
  | .esc => .exit none a
  | .down => .cont (moveDown a)
  | .up => .cont (moveUp a)
  | .enter => .exit (some a.selected) a
  | .other => .cont a

/-- One press/repeat key event dispatched according to the current mode
(lines 267 and 294). -/
def stepApp (a : App) (k : KeyCode) (env : GitEnv) : StepResult :=
  match a.mode with
  | AppMode.ConfirmDelete => confirmStep a k env
  | AppMode.Normal => normalStep a k

/-- One full poll cycle (lines 260-318): a poll timeout (`none`) and a key
release are no-op cycles; otherwise dispatch the key. -/
def handleEvent (a : App) (ev : Option KeyEvent) (env : GitEnv) : StepResult :=
  match ev with
  | none => .cont a
  | some e => if e.isRelease then .cont a else stepApp a e.code env

/-- The observable way `run_app` ends, extracted from a `StepResult` when
the iteration does end the loop. -/
inductive LoopRes where
  | sel (idx : Nat)
  | noSel
  | err (e : String)
deriving DecidableEq

/-- Maps an iteration result to the loop's return value, when this
iteration returns (`none` while the loop continues). -/
def resultOf : StepResult → Option LoopRes
  | .cont _ => none
  | .exit none _ => some .noSel
  | .exit (some i) _ => some (.sel i)
  | .fail e _ => some (.err e)

/- ### `main`: startup and exit-code propagation -/

/-- How `main` proceeds after the initial `load_branches()` (lines 71-88):
a load error propagates out of `main` (exit 1), an empty list prints
"no local branches found" on stderr and returns `Ok(())` (exit 0) without
entering the interactive session, otherwise the session starts at
`selected = 0` in `Normal` mode. -/
inductive StartResult where
  | loadFailed (e : String)
  | noBranches (stderrLine : String) (exitCode : Int)
  | session (a : App)
deriving DecidableEq

/-- Lines 70-81 of `main.rs`. -/
def mainStart (o : CmdOutput) : StartResult :=
  match load_branches o with
  | .error e => .loadFailed e
  | .ok bs =>
    if bs.isEmpty then .noBranches "no local branches found" 0
    else .session { branches := bs, selected := 0, mode := AppMode.Normal }

/-- Lines 97-113 of `main.rs`: the process exit code as a function of the
loop result and (when a selection was made) the `git switch` exit status.
On a selection, success exits 0 and failure exits with the subprocess's
own code (`status.code().unwrap_or(1)`); quitting exits 0; a loop error is
printed and the process exits 1. -/
def mainExitCode (res : LoopRes) (switch : ExitStatus) : Int :=
  match res with
  | .sel _ => if switch.success then 0 else switch.code.getD 1
  | .noSel => 0
  | .err _ => 1

/-- Stderr lines `main` itself writes after the loop (line 109); on a
`git switch` failure the subprocess's stderr is inherited, not captured,
so `main` adds nothing of its own. -/
def mainStderr (res : LoopRes) : List String :=
  match res with
  | .err e => ["error: " ++ e]
  | _ => []

/- ### Reachability -/

/-- The states the session can reach: the initial state built by `main`
from a non-empty load (line 77-81), closed under poll cycles with
arbitrary key events and arbitrary subprocess outcomes. -/
inductive Reachable : App → Prop
  | init (bs : List Branch) (h : bs ≠ []) :
      Reachable { branches := bs, selected := 0, mode := AppMode.Normal }
  | step {a a' : App} (ev : Option KeyEvent) (env : GitEnv)
      (hr : Reachable a) (h : handleEvent a ev env = .cont a') : Reachable a'

/-- The loop invariant: the branch list is non-empty, the selection is in
bounds, and in `ConfirmDelete` mode the selected branch is not current. -/
def Inv (a : App) : Prop :=
  a.branches ≠ [] ∧ a.selected < a.branches.length ∧
    (a.mode = AppMode.ConfirmDelete →
      ∃ b, a.branches[a.selected]? = some b ∧ b.is_current = false)

/- ### Unfolding lemmas -/

theorem stepApp_normal (a : App) (k : KeyCode) (env : GitEnv)
    (hm : a.mode = AppMode.Normal) : stepApp a k env = normalStep a k := by
  unfold stepApp; rw [hm]

theorem stepApp_confirm (a : App) (k : KeyCode) (env : GitEnv)
    (hm : a.mode = AppMode.ConfirmDelete) : stepApp a k env = confirmStep a k env := by
  unfold stepApp; rw [hm]

theorem confirmStep_y (a : App) (env : GitEnv) :
    confirmStep a (.char 'y') env = confirmYes a env := by
  unfold confirmStep; simp

theorem confirmYes_some {a : App} {env : GitEnv} {b : Branch}
    (hb : a.branches[a.selected]? = some b) :
    confirmYes a env =
      match (delete_branch b.name env.safe env.forced).1 with
      | .error e => .fail ("Failed to delete branch: " ++ e) { a with mode := AppMode.Normal }
      | .ok _ => afterDelete a env := by
  unfold confirmYes; rw [hb]

theorem confirmYes_delete_ok {a : App} {env : GitEnv} {b : Branch}
    (hb : a.branches[a.selected]? = some b)
    (hdel : (delete_branch b.name env.safe env.forced).1 = .ok ()) :
    confirmYes a env = afterDelete a env := by
  rw [confirmYes_some hb, hdel]

theorem afterDelete_err {a : App} {env : GitEnv} {e : String}
    (hre : load_branches env.reload = .error e) :
    afterDelete a env = .fail e a := by
  unfold afterDelete; rw [hre]

theorem afterDelete_ok {a : App} {env : GitEnv} {bs : List Branch}
    (hre : load_branches env.reload = .ok bs) :
    afterDelete a env = afterReload a bs := by
  unfold afterDelete; rw [hre]

theorem moveDown_branches (a : App) : (moveDown a).branches = a.branches := by
  unfold moveDown; split <;> rfl

theorem moveDown_mode (a : App) : (moveDown a).mode = a.mode := by
  unfold moveDown; split <;> rfl

theorem moveDown_selected_lt {a : App} (h2 : a.selected < a.branches.length) :
    (moveDown a).selected < a.branches.length := by
  unfold moveDown; split
  next hc => exact hc
  next => exact h2

theorem moveUp_branches (a : App) : (moveUp a).branches = a.branches := by
  unfold moveUp; split <;> rfl

theorem moveUp_mode (a : App) : (moveUp a).mode = a.mode := by
  unfold moveUp; split <;> rfl

theorem moveUp_selected_lt {a : App} (h2 : a.selected < a.branches.length) :
    (moveUp a).selected < a.branches.length := by
  unfold moveUp; split
  next => exact Nat.lt_of_le_of_lt (Nat.sub_le _ _) h2
  next => exact h2

/- ### Invariant preservation -/

theorem inv_moveDown {a : App} (h1 : a.branches ≠ [])
    (h2 : a.selected < a.branches.length) (hm : a.mode = AppMode.Normal) :
    Inv (moveDown a) := by
  refine ⟨?_, ?_, ?_⟩
  · rw [moveDown_branches]; exact h1
  · rw [moveDown_branches]; exact moveDown_selected_lt h2
  · rw [moveDown_mode, hm]; exact fun hx => AppMode.noConfusion hx

theorem inv_moveUp {a : App} (h1 : a.branches ≠ [])
    (h2 : a.selected < a.branches.length) (hm : a.mode = AppMode.Normal) :
    Inv (moveUp a) := by
  refine ⟨?_, ?_, ?_⟩
  · rw [moveUp_branches]; exact h1
  · rw [moveUp_branches]; exact moveUp_selected_lt h2
  · rw [moveUp_mode, hm]; exact fun hx => AppMode.noConfusion hx

theorem inv_requestDelete {a : App} (h1 : a.branches ≠ [])
    (h2 : a.selected < a.branches.length) (hm : a.mode = AppMode.Normal) :
    Inv (requestDelete a) := by
  unfold requestDelete
  split
  next => exact ⟨h1, h2, fun hx => AppMode.noConfusion (hm.symm.trans hx)⟩
  next hc =>
    refine ⟨h1, h2, fun _ => ?_⟩
    have hb := List.getElem?_eq_getElem h2
    refine ⟨_, hb, ?_⟩
    rw [hb] at hc
    simpa using hc

theorem inv_afterReload {a a' : App} {bs : List Branch}
    (h : afterReload a bs = .cont a') : Inv a' := by
  unfold afterReload at h
  by_cases hbs : bs.isEmpty = true
  · rw [if_pos hbs] at h; exact StepResult.noConfusion h
  · rw [if_neg hbs] at h
    injection h with h; subst h
    have hne : bs ≠ [] := by
      cases bs with
      | nil => exact absurd rfl hbs
      | cons x xs => exact List.cons_ne_nil _ _
    have h0 : 0 < bs.length := List.length_pos.mpr hne
    refine ⟨hne, ?_, fun hx => AppMode.noConfusion hx⟩
    show clampSel a bs < bs.length
    unfold clampSel
    split
    next => omega
    next hc =>
      rcases Nat.lt_or_ge a.selected bs.length with hlt | hge
      · exact hlt
      · exact absurd ⟨hge, by omega⟩ hc

theorem inv_confirmYes {a a' : App} {env : GitEnv}
    (h2 : a.selected < a.branches.length)
    (h : confirmYes a env = .cont a') : Inv a' := by
  obtain ⟨b, hb⟩ : ∃ b, a.branches[a.selected]? = some b :=
    ⟨_, List.getElem?_eq_getElem h2⟩
  rw [confirmYes_some hb] at h
  cases hdel : (delete_branch b.name env.safe env.forced).1 with
  | error e =>
    rw [hdel] at h
    exact StepResult.noConfusion h
  | ok u =>
    rw [hdel] at h
    replace h : afterDelete a env = .cont a' := h
    cases hre : load_branches env.reload with
    | error e => rw [afterDelete_err hre] at h; exact StepResult.noConfusion h
    | ok bs =>
      rw [afterDelete_ok hre] at h
      exact inv_afterReload h

theorem stepApp_inv {a a' : App} {k : KeyCode} {env : GitEnv}
    (hinv : Inv a) (h : stepApp a k env = .cont a') : Inv a' := by
  obtain ⟨h1, h2, h3⟩ := hinv
  cases hm : a.mode with
  | Normal =>
    rw [stepApp_normal a k env hm] at h
    cases k with
    | char c =>
      replace h : (if c = 'q' then StepResult.exit none a
          else if c = 'j' then StepResult.cont (moveDown a)
          else if c = 'k' then StepResult.cont (moveUp a)
          else if c = 'D' then StepResult.cont (requestDelete a)
          else StepResult.cont a) = .cont a' := h
      split_ifs at h with hq hj hk hD
      · injection h with h; subst h; exact inv_moveDown h1 h2 hm
      · injection h with h; subst h; exact inv_moveUp h1 h2 hm
      · injection h with h; subst h; exact inv_requestDelete h1 h2 hm
      · injection h with h; subst h
        exact ⟨h1, h2, fun hx => AppMode.noConfusion (hm.symm.trans hx)⟩
    | esc => exact StepResult.noConfusion h
    | down =>
      replace h : StepResult.cont (moveDown a) = .cont a' := h
      injection h with h; subst h; exact inv_moveDown h1 h2 hm
    | up =>
      replace h : StepResult.cont (moveUp a) = .cont a' := h
      injection h with h; subst h; exact inv_moveUp h1 h2 hm
    | enter => exact StepResult.noConfusion h
    | other =>
      replace h : StepResult.cont a = .cont a' := h
      injection h with h; subst h
      exact ⟨h1, h2, fun hx => AppMode.noConfusion (hm.symm.trans hx)⟩
  | ConfirmDelete =>
    rw [stepApp_confirm a k env hm] at h
    cases k with
    | char c =>
      replace h : (if c = 'y' ∨ c = 'Y' then confirmYes a env
          else if c = 'n' ∨ c = 'N' then StepResult.cont { a with mode := AppMode.Normal }
          else StepResult.cont a) = .cont a' := h
      split_ifs at h with hy hn
      · exact inv_confirmYes h2 h
      · injection h with h; subst h
        exact ⟨h1, h2, fun hx => AppMode.noConfusion hx⟩
      · injection h with h; subst h; exact ⟨h1, h2, h3⟩
    | esc =>
      replace h : StepResult.cont { a with mode := AppMode.Normal } = .cont a' := h
      injection h with h; subst h
      exact ⟨h1, h2, fun hx => AppMode.noConfusion hx⟩
    | down =>
      replace h : StepResult.cont a = .cont a' := h
      injection h with h; subst h; exact ⟨h1, h2, h3⟩
    | up =>
      replace h : StepResult.cont a = .cont a' := h
      injection h with h; subst h; exact ⟨h1, h2, h3⟩
    | enter =>
      replace h : StepResult.cont a = .cont a' := h
      injection h with h; subst h; exact ⟨h1, h2, h3⟩
    | other =>
      replace h : StepResult.cont a = .cont a' := h
      injection h with h; subst h; exact ⟨h1, h2, h3⟩

theorem handleEvent_inv {a a' : App} {ev : Option KeyEvent} {env : GitEnv}
    (hinv : Inv a) (h : handleEvent a ev env = .cont a') : Inv a' := by
  cases ev with
  | none =>
    replace h : StepResult.cont a = .cont a' := h
    injection h with h; subst h; exact hinv
  | some e =>
    replace h : (if e.isRelease = true then StepResult.cont a
        else stepApp a e.code env) = .cont a' := h
    by_cases hr : e.isRelease = true
    · rw [if_pos hr] at h
      injection h with h; subst h; exact hinv
    · rw [if_neg hr] at h
      exact stepApp_inv hinv h

theorem reachable_inv {a : App} (h : Reachable a) : Inv a := by
  induction h with
  | init bs hne =>
    exact ⟨hne, List.length_pos.mpr hne, fun hx => AppMode.noConfusion hx⟩
  | step ev env hr h ih => exact handleEvent_inv ih h

/- ### Claims -/

/-- C1: in `Normal` mode a delete request (`D`) moves to `ConfirmDelete`
only when the selected branch is not current — when it is current the
input is a no-op leaving the state unchanged — and consequently every
reachable state in `ConfirmDelete` mode has a selected branch whose
`is_current` is false. -/
theorem confirmDelete_only_when_not_current :
    (∀ (a : App) (env : GitEnv) (b : Branch),
        a.mode = AppMode.Normal → a.branches[a.selected]? = some b →
        (b.is_current = true → stepApp a (.char 'D') env = .cont a) ∧
        (b.is_current = false →
          stepApp a (.char 'D') env = .cont { a with mode := AppMode.ConfirmDelete })) ∧
    (∀ a : App, Reachable a → a.mode = AppMode.ConfirmDelete →
        ∃ b, a.branches[a.selected]? = some b ∧ b.is_current = false) := by
  constructor
  · intro a env b hm hb
    have hstep : stepApp a (KeyCode.char 'D') env = .cont (requestDelete a) := by
      rw [stepApp_normal a _ env hm]
      rfl
    have hreq : requestDelete a =
        if b.is_current = true then a else { a with mode := AppMode.ConfirmDelete } := by
      unfold requestDelete
      rw [hb]
      rfl
    constructor
    · intro hc; rw [hstep, hreq, if_pos hc]
    · intro hc; rw [hstep, hreq, if_neg (by simp [hc])]
  · intro a hr hm
    exact (reachable_inv hr).2.2 hm

/-- Witness for C1: the state reached by pressing `D` on a non-current
branch is in `ConfirmDelete` mode and its selected branch is not current. -/
theorem confirmDelete_only_when_not_current_witness :
    ∃ b, ([{ name := "feature", short_sha := "def456", is_current := false }] :
        List Branch)[(0 : Nat)]? = some b ∧ b.is_current = false :=
  confirmDelete_only_when_not_current.2
    { branches := [{ name := "feature", short_sha := "def456", is_current := false }],
      selected := 0, mode := AppMode.ConfirmDelete }
    (Reachable.step (some { code := KeyCode.char 'D', isRelease := false })
      { safe := { success := true, stdout := "", stderr := "" },
        forced := { success := true, stdout := "", stderr := "" },
        reload := { success := true, stdout := "", stderr := "" } }
      (Reachable.init [{ name := "feature", short_sha := "def456", is_current := false }]
        (by decide)) rfl)
    rfl

/-- C2: every state reachable from the initial state (selected index 0,
non-empty branch list) by any sequence of poll cycles keeps the selected
index within `[0, branches.length)` whenever the branch list is
non-empty. -/
theorem selected_index_invariant (a : App) (h : Reachable a) :
    a.branches ≠ [] → 0 ≤ a.selected ∧ a.selected < a.branches.length :=
  fun _ => ⟨Nat.zero_le _, (reachable_inv h).2.1⟩

/-- Witness for C2 at the initial one-branch state. -/
theorem selected_index_invariant_witness :
    0 ≤ ({ branches := [{ name := "main", short_sha := "abc123", is_current := true }],
           selected := 0, mode := AppMode.Normal } : App).selected ∧
    ({ branches := [{ name := "main", short_sha := "abc123", is_current := true }],
       selected := 0, mode := AppMode.Normal } : App).selected <
      ({ branches := [{ name := "main", short_sha := "abc123", is_current := true }],
         selected := 0, mode := AppMode.Normal } : App).branches.length :=
  selected_index_invariant _
    (Reachable.init [{ name := "main", short_sha := "abc123", is_current := true }]
      (by decide))
    (by decide)

/-- C3: the Lister's parse maps the N non-empty lines of its input to
exactly N branches in input order; each branch's fields are the line's
`'|'`-separated fields with missing trailing fields defaulting to the
empty string, and `is_current` holds exactly when the third field is the
literal `"*"` (for any number of such lines, including zero). -/
theorem lister_parse_correct (s : String) :
    (load_branches_parse s).length = (nonEmptyLines s).length ∧
    ∀ (i : Nat) (line : String), (nonEmptyLines s)[i]? = some line →
      ∃ b, (load_branches_parse s)[i]? = some b ∧
        b.name = lineField line 0 ∧
        b.short_sha = lineField line 1 ∧
        (b.is_current = true ↔ lineField line 2 = "*") := by
  have hEq : load_branches_parse s = (nonEmptyLines s).map parseLine := rfl
  constructor
  · rw [hEq, List.length_map]
  · intro i line hi
    refine ⟨parseLine line, ?_, rfl, rfl, ?_⟩
    · rw [hEq, List.getElem?_map, hi]
      rfl
    · show (lineField line 2 == "*") = true ↔ lineField line 2 = "*"
      exact beq_iff_eq

/-- Witness for C3 on the spec's example input. -/
theorem lister_parse_correct_witness :
    ∃ b, (load_branches_parse "main|abc123|*\nfeature|def456|")[(1 : Nat)]? = some b ∧
      b.name = lineField "feature|def456|" 0 ∧
      b.short_sha = lineField "feature|def456|" 1 ∧
      (b.is_current = true ↔ lineField "feature|def456|" 2 = "*") :=
  (lister_parse_correct "main|abc123|*\nfeature|def456|").2 1 "feature|def456|" (by decide)

/-- C4: `delete_branch` runs the safe delete first; when the safe delete
succeeds the forced variant is never invoked; when it fails with a stderr
containing "not fully merged" the forced variant is invoked, the overall
result succeeding iff the forced delete succeeds and otherwise carrying
the forced delete's stderr; any other safe failure is surfaced at once
with no forced invocation, carrying the safe delete's stderr. -/
theorem delete_branch_fallback (name : String) (safe forced : CmdOutput) :
    (safe.success = true → delete_branch name safe forced = (.ok (), false)) ∧
    (safe.success = false → strContains safe.stderr "not fully merged" = true →
      (delete_branch name safe forced).2 = true ∧
      (forced.success = true → (delete_branch name safe forced).1 = .ok ()) ∧
      (forced.success = false → (delete_branch name safe forced).1 =
        .error ("git branch -D failed: " ++ forced.stderr))) ∧
    (safe.success = false → strContains safe.stderr "not fully merged" = false →
      delete_branch name safe forced =
        (.error ("git branch -d failed: " ++ safe.stderr), false)) := by
  refine ⟨fun hs => ?_, fun hs hc => ⟨?_, fun hf => ?_, fun hf => ?_⟩, fun hs hc => ?_⟩
  · unfold delete_branch
    rw [if_pos hs]
  · unfold delete_branch
    rw [if_neg (by simp [hs]), if_pos hc]
    split <;> rfl
  · unfold delete_branch
    rw [if_neg (by simp [hs]), if_pos hc, if_pos hf]
  · unfold delete_branch
    rw [if_neg (by simp [hs]), if_pos hc, if_neg (by simp [hf])]
  · unfold delete_branch
    rw [if_neg (by simp [hs]), if_neg (by simp [hc])]

/-- Witness for C4: a safe-delete failure mentioning "not fully merged"
invokes the forced variant, which succeeds. -/
theorem delete_branch_fallback_witness :
    (delete_branch "feature"
      { success := false, stdout := "", stderr := "error: the branch is not fully merged." }
      { success := true, stdout := "", stderr := "" }).2 = true ∧
    (delete_branch "feature"
      { success := false, stdout := "", stderr := "error: the branch is not fully merged." }
      { success := true, stdout := "", stderr := "" }).1 = .ok () := by
  have h := (delete_branch_fallback "feature"
    { success := false, stdout := "", stderr := "error: the branch is not fully merged." }
    { success := true, stdout := "", stderr := "" }).2.1 rfl (by decide)
  exact ⟨h.1, h.2.1 rfl⟩

/-- C5: a confirmed delete of the last remaining branch (one branch,
selected index 0) whose reload returns an empty list makes the loop exit
with the no-selection result — the very result quitting produces — not
with an error. -/
theorem delete_last_branch_exits_no_selection (a : App) (env : GitEnv) (b : Branch)
    (hm : a.mode = AppMode.ConfirmDelete)
    (hlen : a.branches.length = 1)
    (hsel : a.selected = 0)
    (hb : a.branches[a.selected]? = some b)
    (hdel : (delete_branch b.name env.safe env.forced).1 = .ok ())
    (hre : load_branches env.reload = .ok []) :
    resultOf (stepApp a (.char 'y') env) = some LoopRes.noSel ∧
    ∀ a2 : App, a2.mode = AppMode.Normal →
      resultOf (stepApp a2 (.char 'q') env) = some LoopRes.noSel := by
  constructor
  · rw [stepApp_confirm a _ env hm, confirmStep_y, confirmYes_delete_ok hb hdel,
      afterDelete_ok hre]
    rfl
  · intro a2 hm2
    rw [stepApp_normal a2 _ env hm2]
    rfl

/-- Witness for C5 deleting the sole branch. -/
theorem delete_last_branch_exits_no_selection_witness :
    resultOf (stepApp
      { branches := [{ name := "feature", short_sha := "def456", is_current := false }],
        selected := 0, mode := AppMode.ConfirmDelete }
      (.char 'y')
      { safe := { success := true, stdout := "", stderr := "" },
        forced := { success := true, stdout := "", stderr := "" },
        reload := { success := true, stdout := "", stderr := "" } }) =
      some LoopRes.noSel :=
  (delete_last_branch_exits_no_selection
    { branches := [{ name := "feature", short_sha := "def456", is_current := false }],
      selected := 0, mode := AppMode.ConfirmDelete }
    { safe := { success := true, stdout := "", stderr := "" },
      forced := { success := true, stdout := "", stderr := "" },
      reload := { success := true, stdout := "", stderr := "" } }
    { name := "feature", short_sha := "def456", is_current := false }
    rfl rfl rfl rfl rfl rfl).1

/-- C6: a successful confirmed delete installs the list reloaded via the
Lister, clamps the selection to `newLength - 1` exactly when it pointed
past the end of the (non-empty) new list, and returns to `Normal` mode. -/
theorem delete_success_clamps_selection (a : App) (env : GitEnv) (b : Branch)
    (bs : List Branch)
    (hm : a.mode = AppMode.ConfirmDelete)
    (hb : a.branches[a.selected]? = some b)
    (hdel : (delete_branch b.name env.safe env.forced).1 = .ok ())
    (hre : load_branches env.reload = .ok bs)
    (hne : bs ≠ []) :
    stepApp a (.char 'y') env =
      .cont { branches := bs,
              selected := if bs.length ≤ a.selected then bs.length - 1 else a.selected,
              mode := AppMode.Normal } := by
  have h0 : 0 < bs.length := List.length_pos.mpr hne
  have hbs : bs.isEmpty = false := by
    cases bs with
    | nil => exact absurd rfl hne
    | cons x xs => rfl
  rw [stepApp_confirm a _ env hm, confirmStep_y, confirmYes_delete_ok hb hdel,
    afterDelete_ok hre]
  unfold afterReload
  rw [if_neg (by simp [hbs])]
  have hclamp : clampSel a bs =
      if bs.length ≤ a.selected then bs.length - 1 else a.selected := by
    unfold clampSel
    by_cases hc : bs.length ≤ a.selected
    · rw [if_pos ⟨hc, by omega⟩, if_pos hc]
    · rw [if_neg (fun hand => hc hand.1), if_neg hc]
  rw [hclamp]

/-- Witness for C6: deleting the selected last entry of a two-branch list
clamps the selection from 1 to 0 and returns to `Normal`. -/
theorem delete_success_clamps_selection_witness :
    stepApp
      { branches := [{ name := "main", short_sha := "abc123", is_current := true },
                     { name := "feature", short_sha := "def456", is_current := false }],
        selected := 1, mode := AppMode.ConfirmDelete }
      (.char 'y')
      { safe := { success := true, stdout := "", stderr := "" },
        forced := { success := true, stdout := "", stderr := "" },
        reload := { success := true, stdout := "main|abc123|*", stderr := "" } } =
      .cont { branches := [{ name := "main", short_sha := "abc123", is_current := true }],
              selected := 0, mode := AppMode.Normal } :=
  (delete_success_clamps_selection
    { branches := [{ name := "main", short_sha := "abc123", is_current := true },
                   { name := "feature", short_sha := "def456", is_current := false }],
      selected := 1, mode := AppMode.ConfirmDelete }
    { safe := { success := true, stdout := "", stderr := "" },
      forced := { success := true, stdout := "", stderr := "" },
      reload := { success := true, stdout := "main|abc123|*", stderr := "" } }
    { name := "feature", short_sha := "def456", is_current := false }
    [{ name := "main", short_sha := "abc123", is_current := true }]
    rfl rfl rfl rfl (by decide)).trans (by decide)

/-- C7: when the loop exits with a selection and `git switch` exits
non-zero, the process exit code is the subprocess's own exit code verbatim
when available and 1 otherwise (the subprocess's stderr is inherited, not
captured, so its failure output reaches the user directly). -/
theorem switch_failure_exit_code (idx : Nat) (st : ExitStatus)
    (hf : st.success = false) :
    (∀ c : Int, st.code = some c → mainExitCode (LoopRes.sel idx) st = c) ∧
    (st.code = none → mainExitCode (LoopRes.sel idx) st = 1) := by
  have h : mainExitCode (LoopRes.sel idx) st = st.code.getD 1 := by
    show (if st.success = true then (0 : Int) else st.code.getD 1) = st.code.getD 1
    rw [if_neg (by simp [hf])]
  constructor
  · intro c hc; rw [h, hc]; rfl
  · intro hc; rw [h, hc]; rfl

/-- Witness for C7: a failed switch with exit code 128 makes the process
exit 128. -/
theorem switch_failure_exit_code_witness :
    mainExitCode (LoopRes.sel 0) { success := false, code := some 128 } = 128 :=
  (switch_failure_exit_code 0 { success := false, code := some 128 } rfl).1 128 rfl

/-- C8: navigation is idempotent at the boundaries — up/`k` at index 0 and
down/`j` at the last index leave the state unchanged (no wraparound). -/
theorem navigation_boundary_idempotent (a : App) (env : GitEnv)
    (hm : a.mode = AppMode.Normal) :
    (a.selected = 0 →
      stepApp a .up env = .cont a ∧ stepApp a (.char 'k') env = .cont a) ∧
    (a.selected = a.branches.length - 1 →
      stepApp a .down env = .cont a ∧ stepApp a (.char 'j') env = .cont a) := by
  have hup : a.selected = 0 → moveUp a = a := by
    intro h0; unfold moveUp; rw [if_neg (by omega)]
  have hdown : a.selected = a.branches.length - 1 → moveDown a = a := by
    intro h0; unfold moveDown; rw [if_neg (by omega)]
  constructor
  · intro h0
    constructor
    · rw [stepApp_normal a _ env hm]
      show StepResult.cont (moveUp a) = .cont a
      rw [hup h0]
    · rw [stepApp_normal a _ env hm]
      show StepResult.cont (moveUp a) = .cont a
      rw [hup h0]
  · intro h0
    constructor
    · rw [stepApp_normal a _ env hm]
      show StepResult.cont (moveDown a) = .cont a
      rw [hdown h0]
    · rw [stepApp_normal a _ env hm]
      show StepResult.cont (moveDown a) = .cont a
      rw [hdown h0]

/-- Witness for C8 on a single-branch list, where index 0 is both
boundaries. -/
theorem navigation_boundary_idempotent_witness :
    stepApp { branches := [{ name := "main", short_sha := "abc123", is_current := true }],
              selected := 0, mode := AppMode.Normal } .up
      { safe := { success := true, stdout := "", stderr := "" },
        forced := { success := true, stdout := "", stderr := "" },
        reload := { success := true, stdout := "", stderr := "" } } =
      .cont { branches := [{ name := "main", short_sha := "abc123", is_current := true }],
              selected := 0, mode := AppMode.Normal } ∧
    stepApp { branches := [{ name := "main", short_sha := "abc123", is_current := true }],
              selected := 0, mode := AppMode.Normal } .down
      { safe := { success := true, stdout := "", stderr := "" },
        forced := { success := true, stdout := "", stderr := "" },
        reload := { success := true, stdout := "", stderr := "" } } =
      .cont { branches := [{ name := "main", short_sha := "abc123", is_current := true }],
              selected := 0, mode := AppMode.Normal } := by
  have h := navigation_boundary_idempotent
    { branches := [{ name := "main", short_sha := "abc123", is_current := true }],
      selected := 0, mode := AppMode.Normal }
    { safe := { success := true, stdout := "", stderr := "" },
      forced := { success := true, stdout := "", stderr := "" },
      reload := { success := true, stdout := "", stderr := "" } }
    rfl
  exact ⟨(h.1 rfl).1, (h.2 (by decide)).1⟩

/-- C9: when the initial load succeeds with an empty branch list, the
process prints "no local branches found" on stderr and exits 0, without
starting the interactive session. -/
theorem empty_initial_list_exits_zero (o : CmdOutput)
    (h : load_branches o = .ok []) :
    mainStart o = .noBranches "no local branches found" 0 := by
  unfold mainStart
  rw [h]
  rfl

/-- Witness for C9: a successful listing with empty output. -/
theorem empty_initial_list_exits_zero_witness :
    mainStart { success := true, stdout := "", stderr := "" } =
      .noBranches "no local branches found" 0 :=
  empty_initial_list_exits_zero { success := true, stdout := "", stderr := "" } rfl

/-- C10: when the reload after a successful confirmed delete fails, the
loop ends immediately with that error, leaving the in-memory state as the
stale pre-delete state (still in `ConfirmDelete` mode), and `main` reports
the error and exits 1 regardless of any switch status. -/
theorem reload_failure_fatal (a : App) (env : GitEnv) (b : Branch) (e : String)
    (hm : a.mode = AppMode.ConfirmDelete)
    (hb : a.branches[a.selected]? = some b)
    (hdel : (delete_branch b.name env.safe env.forced).1 = .ok ())
    (hre : load_branches env.reload = .error e) :
    stepApp a (.char 'y') env = .fail e a ∧
    ∀ sw : ExitStatus, mainExitCode (LoopRes.err e) sw = 1 := by
  constructor
  · rw [stepApp_confirm a _ env hm, confirmStep_y, confirmYes_delete_ok hb hdel,
      afterDelete_err hre]
  · intro sw; rfl

/-- Witness for C10: a delete that succeeds followed by a failing reload
ends the loop with the reload error and the pre-delete state. -/
theorem reload_failure_fatal_witness :
    stepApp
      { branches := [{ name := "main", short_sha := "abc123", is_current := true },
                     { name := "feature", short_sha := "def456", is_current := false }],
        selected := 1, mode := AppMode.ConfirmDelete }
      (.char 'y')
      { safe := { success := true, stdout := "", stderr := "" },
        forced := { success := true, stdout := "", stderr := "" },
        reload := { success := false, stdout := "", stderr := "fatal: not a git repository" } } =
      .fail "git for-each-ref failed: fatal: not a git repository"
        { branches := [{ name := "main", short_sha := "abc123", is_current := true },
                       { name := "feature", short_sha := "def456", is_current := false }],
          selected := 1, mode := AppMode.ConfirmDelete } ∧
    mainExitCode (LoopRes.err "git for-each-ref failed: fatal: not a git repository")
      { success := true, code := some 0 } = 1 := by
  have h := reload_failure_fatal
    { branches := [{ name := "main", short_sha := "abc123", is_current := true },
                   { name := "feature", short_sha := "def456", is_current := false }],
      selected := 1, mode := AppMode.ConfirmDelete }
    { safe := { success := true, stdout := "", stderr := "" },
      forced := { success := true, stdout := "", stderr := "" },
      reload := { success := false, stdout := "", stderr := "fatal: not a git repository" } }
    { name := "feature", short_sha := "def456", is_current := false }
    "git for-each-ref failed: fatal: not a git repository"
    rfl rfl rfl rfl
  exact ⟨h.1, h.2 { success := true, code := some 0 }⟩

end GBS
